import Mathlib

/-!
# Verification of the iTerm2 bridge core (scripts/iterm2_bridge.py)

Shallow embedding of the bridge's pure core: cell-color resolution
(`resolve_cell_color`), style projection (`style_to_dict`), the per-row
run-length encoder inlined in `process_screen_contents`, and an abstract
state-machine model of `process_command`.

Python strings are modelled as `List Char` where their characters matter
(run texts, row contents) and as `String` where they are only compared or
concatenated (hex colors, session ids, event messages).
-/

set_option autoImplicit false

namespace ITerm2Bridge

/-! ### Hex formatting

Python `f"{n:02x}"` for `0 ≤ n < 256`: two lowercase hex digits.  All call
sites below pass values `< 256` (byte components, the gray ramp maxes at
238), where the two-digit form is exact. -/

/-- Lowercase hexadecimal digit for `n < 16`: `'0'..'9'` then `'a'..'f'`. -/
def hex_digit (n : Nat) : Char :=
  if n < 10 then Char.ofNat (48 + n) else Char.ofNat (87 + n)

/-- Python `f"{n:02x}"` for byte values: two lowercase hex digits. -/
def to_hex_02 (n : Nat) : String :=
  ⟨[hex_digit (n / 16 % 16), hex_digit (n % 16)]⟩

/-! ### Color model

`iterm2.CellStyle.Color`: tested via `is_rgb` / `is_standard` /
`is_alternate`, carrying an rgb triple, a standard (256-color) index, or an
alternate code.  The Python attribute `color` may also be `None`, hence the
`Option` at use sites.  The standard index is an `Int` so that the source's
range guards (`0 <= idx`, boundary checks) keep their force. -/

inductive CellColorValue where
  | rgb (red green blue : Nat)
  | standard (idx : Int)
  | alternate (alt : Nat)
deriving DecidableEq, Repr

/-- Source lines 79-106 (`resolve_cell_color`): resolve a cell color to a
hex string, `none` meaning "use terminal default".  Mirrors the branch
structure: `None` check, `is_rgb`, `is_standard` with the ANSI range
(guarded by palette length), the 6x6x6 cube, the grayscale ramp, and the
fall-through `return None` (which also covers `is_alternate`). -/
def resolve_cell_color (color : Option CellColorValue) (ansi_palette : List String) :
    Option String :=
  match color with
  | none => none
  | some (.rgb r g b) =>
      some ("#" ++ to_hex_02 r ++ to_hex_02 g ++ to_hex_02 b)
  | some (.standard idx) =>
      if (0 ≤ idx ∧ idx < 16) ∧ idx < (ansi_palette.length : Int) then
        some (ansi_palette.getD idx.toNat "")
      else if 16 ≤ idx ∧ idx < 232 then
        let v := (idx - 16).toNat
        let r := (v / 36) * 51
        let g := ((v % 36) / 6) * 51
        let b := (v % 6) * 51
        some ("#" ++ to_hex_02 r ++ to_hex_02 g ++ to_hex_02 b)
      else if 232 ≤ idx ∧ idx < 256 then
        let v := ((idx - 232) * 10 + 8).toNat
        some ("#" ++ to_hex_02 v ++ to_hex_02 v ++ to_hex_02 v)
      else
        none
  | some (.alternate _) => none

/-! ### Cell styles and their wire projection -/

/-- `iterm2.CellStyle` as consumed by `style_to_dict`: fg/bg color plus the
six boolean attributes.  The source wraps each attribute access in
`try/except` against a foreign object; here the fields are total. -/
structure CellStyle where
  fg_color : Option CellColorValue
  bg_color : Option CellColorValue
  bold : Bool
  italic : Bool
  underline : Bool
  strikethrough : Bool
  inverse : Bool
  faint : Bool
deriving DecidableEq, Repr

/-- The compact style dict built by `style_to_dict` (source lines 155-212).
A Python dict over the fixed key set `fg,bg,b,i,u,s,inv,f`, where a key is
present iff the color resolved (`if fg:` — resolved hex strings are never
empty) resp. the flag is true; so dict equality is structural equality of
this record. -/
structure ResolvedStyle where
  fg : Option String := none
  bg : Option String := none
  b : Bool := false
  i : Bool := false
  u : Bool := false
  s : Bool := false
  inv : Bool := false
  f : Bool := false
deriving DecidableEq, Repr

/-- Source lines 155-212 (`style_to_dict`): project a cell style to the
wire dict.  `None` style gives the empty dict. -/
def style_to_dict (style : Option CellStyle) (ansi_palette : List String) :
    ResolvedStyle :=
  match style with
  | none => {}
  | some st =>
      { fg := resolve_cell_color st.fg_color ansi_palette
        bg := resolve_cell_color st.bg_color ansi_palette
        b := st.bold
        i := st.italic
        u := st.underline
        s := st.strikethrough
        inv := st.inverse
        f := st.faint }

/-! ### Run encoding

Source lines 111-152 (`process_screen_contents`): each row's text is
traversed left to right; per cell the style dict is computed
(`style_to_dict(style, ansi_palette) if style else {}`), compared with the
accumulator's dict (initially Python `None`, which equals no dict), and the
accumulator is extended or flushed.  A flushed run is
`{"t": current_text}` updated with the accumulator dict (updating with an
empty dict is the identity, and a non-empty `current_text` implies the
accumulator dict is set, so `Option.getD {}` is exact). -/

/-- The per-cell style dict of the encoder loop:
`style_to_dict(style, ansi_palette) if style else {}`. -/
def cell_dict (ansi_palette : List String) : Option CellStyle → ResolvedStyle
  | some st => style_to_dict (some st) ansi_palette
  | none => {}

/-- One wire run: its text (a non-empty character sequence in the source's
output) and the style dict shared by all its cells. -/
structure Run where
  t : List Char
  style : ResolvedStyle
deriving DecidableEq, Repr

/-- The encoder loop of `process_screen_contents` (source lines 128-148),
with the loop state (`runs`, `current_text`, `current_style`) explicit.
The trailing flush (source lines 144-148) is the base case. -/
def encode_row_loop (ansi_palette : List String) :
    List (Char × Option CellStyle) → List Run → List Char →
      Option ResolvedStyle → List Run
  | [], runs, current_text, current_style =>
      if current_text = [] then runs
      else runs ++ [⟨current_text, current_style.getD {}⟩]
  | (char, style) :: rest, runs, current_text, current_style =>
      let style_dict := cell_dict ansi_palette style
      if some style_dict = current_style then
        encode_row_loop ansi_palette rest runs (current_text ++ [char]) current_style
      else
        let runs' :=
          if current_text = [] then runs
          else runs ++ [⟨current_text, current_style.getD {}⟩]
        encode_row_loop ansi_palette rest runs' [char] (some style_dict)

/-- Encode one row of (character, style) cells, starting from the empty
accumulator (`current_text = ""`, `current_style = None`). -/
def encode_row (ansi_palette : List String)
    (cells : List (Char × Option CellStyle)) : List Run :=
  encode_row_loop ansi_palette cells [] [] none

/-- Source lines 111-152 (`process_screen_contents`): encode every row.
The source's early `if not text` shortcut appends the empty run list,
which `encode_row` also returns on an empty row. -/
def process_screen_contents (rows : List (List (Char × Option CellStyle)))
    (ansi_palette : List String) : List (List Run) :=
  rows.map (encode_row ansi_palette)

/-- Expansion of a run list to one style per covered cell, in row order:
the device for locating "the run containing cell k". -/
def expand_runs (runs : List Run) : List ResolvedStyle :=
  (runs.map fun r => r.t.map fun _ => r.style).flatten

/-- The run of `runs` covering position `k` of the row (positions are
cumulative over run texts). -/
def run_at : List Run → Nat → Option Run
  | [], _ => none
  | r :: rs, k => if k < r.t.length then some r else run_at rs (k - r.t.length)

/-- A cell style whose fg reference the source resolves to "default": the
color object is `None`, the fg color is `None`, or it is an alternate
(DEFAULT) reference — all return `None` from `resolve_cell_color`. -/
def is_default_fg : Option CellStyle → Bool
  | none => true
  | some st =>
      match st.fg_color with
      | none => true
      | some (.alternate _) => true
      | some _ => false

/-! ### Command state machine

Source lines 272-364 (`process_command`), abstracted over the asyncio and
iTerm2 collaborators.  The mutable globals `streaming_task`/`stop_event`
are modelled as `Option String`: `some sid` is a live poll task streaming
session `sid`; after the source's cancel-and-await sequence (signal the
stop event, `task.cancel()`, `await task`) the task is complete, and every
later check goes through `streaming_task.done()`, so a retired task is
observably `none`.  Events carry the fields the claims inspect; emitted
payload details (lines, cursor, colors) are abstracted to the session id. -/

/-- Outcome of `session.async_get_screen_contents()` during `watch`
(source lines 339-357): a snapshot (emit content), a falsy result (emit
nothing), or an exception (emit an error). -/
inductive InitFetchOutcome where
  | ok
  | empty
  | failed
deriving DecidableEq, Repr

/-- The external world a command executes against: which session ids
resolve, and how the initial snapshot fetch behaves. -/
structure BridgeEnv where
  sessions : List String
  initial_fetch : InitFetchOutcome
deriving DecidableEq, Repr

/-- Controller state: the live streaming activation, if any.  `none` is
the Idle state of the spec. -/
structure BridgeState where
  streaming_task : Option String
deriving DecidableEq, Repr

/-- One parsed line of input: unparsable JSON, or an object whose `cmd`
field is `watch` (with its optional `sessionId`), `stop`, `quit`, or
anything else (ignored silently by the source's if/elif chain). -/
inductive BridgeCmd where
  | invalid
  | watch (session_id : Option String)
  | stop
  | quit
  | other (action : String)
deriving DecidableEq, Repr

/-- The events `process_command` can emit, payloads abstracted to what the
claims inspect. -/
inductive BridgeEvent where
  | error (message : String)
  | profile (session_id : String)
  | content (session_id : String)
  | stopped
deriving DecidableEq, Repr

/-- Source lines 272-364 (`process_command`): process one command, giving
the new state, the emitted events in order, and the should-quit flag.
Mirrors the source branch for branch: JSON failure; `quit` (cancel, no
event); `stop` (cancel, emit stopped); `watch` (falsy sessionId check,
then cancel the current task, settle, resolve the session — emitting an
error and stopping there if absent — then emit profile, attempt the
initial frame, and spawn the poll task); silent fall-through otherwise. -/
def process_command (env : BridgeEnv) (st : BridgeState) (cmd : BridgeCmd) :
    BridgeState × List BridgeEvent × Bool :=
  match cmd with
  | .invalid => (st, [.error "Invalid JSON"], false)
  | .quit => (⟨none⟩, [], true)
  | .stop => (⟨none⟩, [.stopped], false)
  | .watch session_id =>
      match session_id with
      | none => (st, [.error "Missing sessionId"], false)
      | some sid =>
          if sid = "" then (st, [.error "Missing sessionId"], false)
          else if sid ∈ env.sessions then
            let init_events : List BridgeEvent :=
              match env.initial_fetch with
              | .ok => [.content sid]
              | .empty => []
              | .failed => [.error "Initial fetch failed"]
            (⟨some sid⟩, .profile sid :: init_events, false)
          else
            (⟨none⟩, [.error ("Session not found: " ++ sid)], false)
  | .other _ => (st, [], false)

end ITerm2Bridge

namespace ITerm2Bridge

/-! ### Theorems: color resolution (claims C1 and C10) -/

/-- C1, counterexample: the claim says Standard index 255 resolves to
`#ffffff`, but the code's gray-ramp formula gives `(255-232)*10+8 = 238 =
0xee`, i.e. `#eeeeee`. -/
theorem color_cube_255_counterexample :
    resolve_cell_color (some (.standard 255)) [] = some "#eeeeee" ∧
    resolve_cell_color (some (.standard 255)) [] ≠ some "#ffffff" := by
  decide

/-- C1, amended: over any palette, extended indices resolve as: 16 to
`#000000`, 21 to `#0000ff`, 231 to `#ffffff`, 232 to `#080808`, 255 to
`#eeeeee`; and every grayscale index `232 ≤ idx < 256` resolves to the hex
of `(idx-232)*10+8` repeated identically for r, g and b. -/
theorem color_cube_resolution (ansi_palette : List String) :
    resolve_cell_color (some (.standard 16)) ansi_palette = some "#000000" ∧
    resolve_cell_color (some (.standard 21)) ansi_palette = some "#0000ff" ∧
    resolve_cell_color (some (.standard 231)) ansi_palette = some "#ffffff" ∧
    resolve_cell_color (some (.standard 232)) ansi_palette = some "#080808" ∧
    resolve_cell_color (some (.standard 255)) ansi_palette = some "#eeeeee" ∧
    ∀ idx : Int, 232 ≤ idx → idx < 256 →
      resolve_cell_color (some (.standard idx)) ansi_palette =
        some ("#" ++ to_hex_02 ((idx - 232) * 10 + 8).toNat
                  ++ to_hex_02 ((idx - 232) * 10 + 8).toNat
                  ++ to_hex_02 ((idx - 232) * 10 + 8).toNat) := by
  refine ⟨rfl, rfl, rfl, rfl, rfl, ?_⟩
  intro idx h1 h2
  interval_cases idx <;> rfl

/-- C1, witness: the amended theorem instantiated at index 240 and the
empty palette. -/
theorem color_cube_resolution_witness :
    resolve_cell_color (some (.standard 240)) [] =
      some ("#" ++ to_hex_02 (((240 : Int) - 232) * 10 + 8).toNat
                ++ to_hex_02 (((240 : Int) - 232) * 10 + 8).toNat
                ++ to_hex_02 (((240 : Int) - 232) * 10 + 8).toNat) :=
  (color_cube_resolution []).2.2.2.2.2 240 (by decide) (by decide)

/-- C10: a Standard index in `0..15` that is out of range for the supplied
palette resolves to no override (the resolver is total, no out-of-bounds
access), and the style projection then carries no fg color. -/
theorem standard_index_beyond_palette_no_override (idx : Int)
    (ansi_palette : List String) (st : CellStyle)
    (h0 : 0 ≤ idx) (h16 : idx < 16)
    (hlen : (ansi_palette.length : Int) ≤ idx)
    (hfg : st.fg_color = some (.standard idx)) :
    resolve_cell_color (some (.standard idx)) ansi_palette = none ∧
    (style_to_dict (some st) ansi_palette).fg = none := by
  have hres : resolve_cell_color (some (.standard idx)) ansi_palette = none := by
    simp only [resolve_cell_color]
    rw [if_neg (by omega), if_neg (by omega), if_neg (by omega)]
  refine ⟨hres, ?_⟩
  simp only [style_to_dict, hfg, hres]

/-- C10, witness: index 3 against an empty palette. -/
theorem standard_index_beyond_palette_no_override_witness :
    resolve_cell_color (some (.standard 3)) [] = none ∧
    (style_to_dict
        (some ⟨some (.standard 3), none, false, false, false, false, false, false⟩)
        []).fg = none :=
  standard_index_beyond_palette_no_override 3 []
    ⟨some (.standard 3), none, false, false, false, false, false, false⟩
    (by decide) (by decide) (by decide) rfl

/-! ### Run-encoder invariants (claims C3, C4, C5, C6) -/

/-- Loop invariant: concatenating the texts of the produced runs yields the
already-flushed text, the accumulator text, and the remaining characters. -/
lemma encode_row_loop_join (ansi_palette : List String) :
    ∀ (cells : List (Char × Option CellStyle)) (runs : List Run)
      (current_text : List Char) (current_style : Option ResolvedStyle),
      ((encode_row_loop ansi_palette cells runs current_text current_style).map
          Run.t).flatten =
        (runs.map Run.t).flatten ++ current_text ++ cells.map Prod.fst := by
  intro cells
  induction cells with
  | nil =>
      intro runs ct cs
      by_cases hct : ct = [] <;>
        simp [encode_row_loop, hct]
  | cons cell rest ih =>
      intro runs ct cs
      obtain ⟨char, style⟩ := cell
      simp only [encode_row_loop]
      by_cases hd : some (cell_dict ansi_palette style) = cs
      · rw [if_pos hd, ih]
        simp
      · rw [if_neg hd, ih]
        by_cases hct : ct = [] <;> simp [hct]

/-- Loop invariant: if every already-flushed run has non-empty text, so
does every run in the final output. -/
lemma encode_row_loop_ne_nil (ansi_palette : List String) :
    ∀ (cells : List (Char × Option CellStyle)) (runs : List Run)
      (current_text : List Char) (current_style : Option ResolvedStyle),
      (∀ r ∈ runs, r.t ≠ []) →
      ∀ r ∈ encode_row_loop ansi_palette cells runs current_text current_style,
        r.t ≠ [] := by
  intro cells
  induction cells with
  | nil =>
      intro runs ct cs hruns r hr
      by_cases hct : ct = []
      · simp only [encode_row_loop, if_pos hct] at hr
        exact hruns r hr
      · simp only [encode_row_loop, if_neg hct, List.mem_append,
          List.mem_singleton] at hr
        rcases hr with hr | hr
        · exact hruns r hr
        · subst hr; exact hct
  | cons cell rest ih =>
      intro runs ct cs hruns r hr
      obtain ⟨char, style⟩ := cell
      simp only [encode_row_loop] at hr
      by_cases hd : some (cell_dict ansi_palette style) = cs
      · rw [if_pos hd] at hr
        exact ih runs (ct ++ [char]) cs hruns r hr
      · rw [if_neg hd] at hr
        refine ih _ [char] (some (cell_dict ansi_palette style)) ?_ r hr
        intro r' hr'
        by_cases hct : ct = []
        · simp only [if_pos hct] at hr'
          exact hruns r' hr'
        · simp only [if_neg hct, List.mem_append, List.mem_singleton] at hr'
          rcases hr' with hr' | hr'
          · exact hruns r' hr'
          · subst hr'; exact hct

/-- C5: the run encoder covers every row exactly — concatenating the run
texts in order reproduces the row's character sequence — and every
produced run has non-empty text (no gaps, no overlaps, no empty runs). -/
theorem runs_cover_row (ansi_palette : List String)
    (cells : List (Char × Option CellStyle)) :
    ((encode_row ansi_palette cells).map Run.t).flatten = cells.map Prod.fst ∧
    ∀ r ∈ encode_row ansi_palette cells, r.t ≠ [] := by
  constructor
  · rw [encode_row, encode_row_loop_join]
    simp
  · exact encode_row_loop_ne_nil ansi_palette cells [] [] none (by simp)

/-- Loop invariant for a constant style: once the accumulator holds style
`S` and every remaining cell resolves to `S`, the loop produces exactly
the flushed runs plus one final run holding the accumulator and all
remaining characters. -/
lemma encode_row_loop_const (ansi_palette : List String) :
    ∀ (cells : List (Char × Option CellStyle)) (runs : List Run)
      (current_text : List Char) (S : ResolvedStyle),
      current_text ≠ [] →
      (∀ c ∈ cells, cell_dict ansi_palette c.2 = S) →
      encode_row_loop ansi_palette cells runs current_text (some S) =
        runs ++ [⟨current_text ++ cells.map Prod.fst, S⟩] := by
  intro cells
  induction cells with
  | nil =>
      intro runs ct S hct _
      simp [encode_row_loop, hct]
  | cons cell rest ih =>
      intro runs ct S hct hall
      obtain ⟨char, style⟩ := cell
      have hcd : cell_dict ansi_palette style = S := hall (char, style) (by simp)
      simp only [encode_row_loop, hcd, if_pos rfl]
      rw [ih runs (ct ++ [char]) S (by simp) (fun c hc => hall c (by simp [hc]))]
      simp

/-- C4: a non-empty row whose cells all resolve to one style `S` encodes to
exactly one run carrying all the row's characters (so its text length is
the cell count), and the empty row encodes to the empty run list. -/
theorem uniform_row_single_run (ansi_palette : List String)
    (cells : List (Char × Option CellStyle)) (S : ResolvedStyle)
    (hne : cells ≠ [])
    (hall : ∀ c ∈ cells, cell_dict ansi_palette c.2 = S) :
    encode_row ansi_palette cells = [⟨cells.map Prod.fst, S⟩] ∧
    (cells.map Prod.fst).length = cells.length ∧
    encode_row ansi_palette [] = [] := by
  refine ⟨?_, by simp, rfl⟩
  obtain ⟨⟨char, style⟩, rest, rfl⟩ : ∃ c rest, cells = c :: rest := by
    cases cells with
    | nil => exact absurd rfl hne
    | cons c rest => exact ⟨c, rest, rfl⟩
  have hcd : cell_dict ansi_palette style = S := hall (char, style) (by simp)
  simp only [encode_row, encode_row_loop, hcd, reduceCtorEq, if_false,
    if_true, if_pos rfl, List.nil_append]
  rw [encode_row_loop_const ansi_palette rest [] [char] S (by simp)
    (fun c hc => hall c (by simp [hc]))]
  simp

/-- C4, witness: the single-cell unstyled row, with `S` the empty dict. -/
theorem uniform_row_single_run_witness :
    encode_row [] [(Char.ofNat 97, none)] =
      [⟨[(Char.ofNat 97, (none : Option CellStyle))].map Prod.fst, {}⟩] ∧
    ([(Char.ofNat 97, (none : Option CellStyle))].map Prod.fst).length =
      [(Char.ofNat 97, (none : Option CellStyle))].length ∧
    encode_row [] [] = [] :=
  uniform_row_single_run [] [(Char.ofNat 97, none)] {} (by simp)
    (by intro c hc; simp only [List.mem_singleton] at hc; subst hc; rfl)

/-- C3: a six-cell row whose cells resolve to the style pattern
`[A,A,B,B,B,A]` with `A ≠ B` encodes to exactly three runs of lengths
2, 3 and 1, in that left-to-right order. -/
theorem pattern_aabbba_three_runs (ansi_palette : List String)
    (c1 c2 c3 c4 c5 c6 : Char) (s1 s2 s3 s4 s5 s6 : Option CellStyle)
    (A B : ResolvedStyle) (hAB : A ≠ B)
    (h1 : cell_dict ansi_palette s1 = A) (h2 : cell_dict ansi_palette s2 = A)
    (h3 : cell_dict ansi_palette s3 = B) (h4 : cell_dict ansi_palette s4 = B)
    (h5 : cell_dict ansi_palette s5 = B) (h6 : cell_dict ansi_palette s6 = A) :
    encode_row ansi_palette
        [(c1, s1), (c2, s2), (c3, s3), (c4, s4), (c5, s5), (c6, s6)] =
      [⟨[c1, c2], A⟩, ⟨[c3, c4, c5], B⟩, ⟨[c6], A⟩] := by
  have hBA : B ≠ A := hAB.symm
  simp [encode_row, encode_row_loop, h1, h2, h3, h4, h5, h6, hAB, hBA]

/-- C3, witness: `A` the empty dict (unstyled cells), `B` the bold dict. -/
theorem pattern_aabbba_three_runs_witness :
    encode_row []
        [(Char.ofNat 97, none), (Char.ofNat 97, none),
         (Char.ofNat 98, some ⟨none, none, true, false, false, false, false, false⟩),
         (Char.ofNat 98, some ⟨none, none, true, false, false, false, false, false⟩),
         (Char.ofNat 98, some ⟨none, none, true, false, false, false, false, false⟩),
         (Char.ofNat 97, none)] =
      [⟨[Char.ofNat 97, Char.ofNat 97], {}⟩,
       ⟨[Char.ofNat 98, Char.ofNat 98, Char.ofNat 98], { b := true }⟩,
       ⟨[Char.ofNat 97], {}⟩] :=
  pattern_aabbba_three_runs [] (Char.ofNat 97) (Char.ofNat 97) (Char.ofNat 98)
    (Char.ofNat 98) (Char.ofNat 98) (Char.ofNat 97)
    none none (some ⟨none, none, true, false, false, false, false, false⟩)
    (some ⟨none, none, true, false, false, false, false, false⟩)
    (some ⟨none, none, true, false, false, false, false, false⟩) none
    {} { b := true } (by decide) rfl rfl rfl rfl rfl rfl

/-- Loop invariant: expanding the produced runs to one style per covered
cell yields the flushed part, the accumulator part, and the per-cell
dicts of the remaining cells. -/
lemma encode_row_loop_expand (ansi_palette : List String) :
    ∀ (cells : List (Char × Option CellStyle)) (runs : List Run)
      (current_text : List Char) (current_style : Option ResolvedStyle),
      expand_runs
          (encode_row_loop ansi_palette cells runs current_text current_style) =
        expand_runs runs ++
          current_text.map (fun _ => current_style.getD {}) ++
          cells.map (fun c => cell_dict ansi_palette c.2) := by
  intro cells
  induction cells with
  | nil =>
      intro runs ct cs
      by_cases hct : ct = [] <;>
        simp [encode_row_loop, expand_runs, hct]
  | cons cell rest ih =>
      intro runs ct cs
      obtain ⟨char, style⟩ := cell
      simp only [encode_row_loop]
      by_cases hd : some (cell_dict ansi_palette style) = cs
      · rw [if_pos hd, ih]
        rcases cs with _ | S
        · exact absurd hd (by simp)
        · obtain rfl : cell_dict ansi_palette style = S := by simpa using hd
          simp
      · rw [if_neg hd, ih]
        by_cases hct : ct = [] <;>
          simp [hct, expand_runs, List.append_assoc]

/-- `run_at` agrees with positional lookup in the expansion: at any covered
position, the located run's style is the expansion's entry there. -/
lemma run_at_style_eq_expand (runs : List Run) :
    ∀ k, k < (expand_runs runs).length →
      (run_at runs k).map Run.style = (expand_runs runs)[k]? := by
  induction runs with
  | nil => intro k hk; simp [expand_runs] at hk
  | cons r rs ih =>
      intro k hk
      simp only [run_at, expand_runs, List.map_cons, List.flatten_cons]
      by_cases h : k < r.t.length
      · rw [if_pos h, List.getElem?_append_left (by simpa using h),
          List.getElem?_map, List.getElem?_eq_getElem h]
        rfl
      · rw [if_neg h, List.getElem?_append_right (by simpa using h)]
        simp only [List.length_map]
        refine ih (k - r.t.length) ?_
        simp only [expand_runs, List.length_append, List.length_map,
          List.length_flatten, List.map_cons, List.sum_cons] at hk ⊢
        omega

/-- A default fg reference resolves to no override, so the cell's dict
carries no fg entry. -/
lemma cell_dict_default_fg (ansi_palette : List String)
    (style : Option CellStyle) (h : is_default_fg style = true) :
    (cell_dict ansi_palette style).fg = none := by
  rcases style with _ | st
  · rfl
  · simp only [cell_dict, style_to_dict]
    rcases hfg : st.fg_color with _ | c
    · simp [resolve_cell_color]
    · rcases c with r | i | a <;>
        simp_all [is_default_fg, resolve_cell_color]

/-- C6: a cell whose fg color reference is Default (absent style, absent
fg color, or an alternate/DEFAULT reference) is covered by a run whose
style dict has no fg entry. -/
theorem default_fg_never_emitted (ansi_palette : List String)
    (cells : List (Char × Option CellStyle)) (k : Nat)
    (hk : k < cells.length)
    (hdef : is_default_fg (cells.get ⟨k, hk⟩).2 = true) :
    ∃ r, run_at (encode_row ansi_palette cells) k = some r ∧
      r.style.fg = none := by
  have hexp : expand_runs (encode_row ansi_palette cells) =
      cells.map (fun c => cell_dict ansi_palette c.2) := by
    rw [encode_row, encode_row_loop_expand]
    simp [expand_runs]
  have hk' : k < (expand_runs (encode_row ansi_palette cells)).length := by
    rw [hexp]; simpa using hk
  have hstyle := run_at_style_eq_expand (encode_row ansi_palette cells) k hk'
  rw [hexp, List.getElem?_map, List.getElem?_eq_getElem hk] at hstyle
  rcases hr : run_at (encode_row ansi_palette cells) k with _ | r
  · rw [hr] at hstyle
    simp at hstyle
  · rw [hr] at hstyle
    refine ⟨r, rfl, ?_⟩
    have hrs : r.style = cell_dict ansi_palette cells[k].2 := by
      simpa using hstyle
    rw [hrs]
    exact cell_dict_default_fg ansi_palette cells[k].2 hdef

/-- C6, witness: a one-cell row with no style at all. -/
theorem default_fg_never_emitted_witness :
    ∃ r, run_at (encode_row [] [(Char.ofNat 97, none)]) 0 = some r ∧
      r.style.fg = none :=
  default_fg_never_emitted [] [(Char.ofNat 97, none)] 0 (by decide) rfl

/-! ### Command state machine (claims C2, C7, C8, C9) -/

/-- C2, counterexample: a `watch` naming an absent session does emit the
error, but it is not free of state change — the previously running
activation (streaming session `A`) has already been cancelled by the time
the lookup fails, so the state does not keep its old activation. -/
theorem watch_session_not_found_counterexample :
    (process_command ⟨["A"], .ok⟩ ⟨some "A"⟩ (.watch (some "B"))).2.1 =
      [.error ("Session not found: " ++ "B")] ∧
    (process_command ⟨["A"], .ok⟩ ⟨some "A"⟩ (.watch (some "B"))).1 ≠
      (⟨some "A"⟩ : BridgeState) := by
  decide

/-- C2, amended: a `watch` naming an absent session emits exactly one
error event, starts no new activation and leaves the controller Idle —
but the previously running activation, if any, has already been cancelled
by the watch before session resolution, so it does not survive. -/
theorem watch_session_not_found (env : BridgeEnv) (st : BridgeState)
    (sid : String) (hsid : sid ≠ "") (habs : sid ∉ env.sessions) :
    process_command env st (.watch (some sid)) =
      (⟨none⟩, [.error ("Session not found: " ++ sid)], false) := by
  simp [process_command, hsid, habs]

/-- C2, witness: watching the absent session `B` while `A` streams. -/
theorem watch_session_not_found_witness :
    process_command ⟨[], .ok⟩ ⟨some "A"⟩ (.watch (some "B")) =
      (⟨none⟩, [.error ("Session not found: " ++ "B")], false) :=
  watch_session_not_found ⟨[], .ok⟩ ⟨some "A"⟩ "B" (by decide) (by simp)

/-- C7: `stop` is idempotent — from any state, two consecutive stop
commands each emit exactly a `stopped` event and leave the controller
Idle (and do not quit); in particular a stop while already Idle is a
no-op that still emits `stopped`. -/
theorem stop_idempotent (env : BridgeEnv) (st : BridgeState) :
    process_command env st .stop = (⟨none⟩, [.stopped], false) ∧
    process_command env (process_command env st .stop).1 .stop =
      (⟨none⟩, [.stopped], false) :=
  ⟨rfl, rfl⟩

/-- C8: a malformed command — an unparsable line, or a `watch` whose
sessionId is missing (or falsy-empty) — emits exactly one error event,
leaves the state unchanged and does not quit; a subsequent valid `watch`
of an existing session still succeeds (profile emitted first, streaming
entered). -/
theorem malformed_command_one_error (env : BridgeEnv) (st : BridgeState)
    (cmd : BridgeCmd) (sid : String)
    (hmal : cmd = .invalid ∨ cmd = .watch none ∨ cmd = .watch (some ""))
    (hsid : sid ≠ "") (hmem : sid ∈ env.sessions) :
    (process_command env st cmd).1 = st ∧
    (∃ m, (process_command env st cmd).2.1 = [.error m]) ∧
    (process_command env st cmd).2.2 = false ∧
    (process_command env (process_command env st cmd).1
        (.watch (some sid))).1 = ⟨some sid⟩ ∧
    ((process_command env (process_command env st cmd).1
        (.watch (some sid))).2.1).head? = some (.profile sid) := by
  have hwatch : ∀ s : BridgeState,
      (process_command env s (.watch (some sid))).1 = ⟨some sid⟩ ∧
      ((process_command env s (.watch (some sid))).2.1).head? =
        some (.profile sid) := by
    intro s
    cases henv : env.initial_fetch <;>
      simp [process_command, hsid, hmem, henv]
  rcases hmal with rfl | rfl | rfl <;>
    exact ⟨rfl, ⟨_, rfl⟩, rfl, (hwatch _).1, (hwatch _).2⟩

/-- C8, witness: an unparsable line while Idle, then a watch of `s1`. -/
theorem malformed_command_one_error_witness :
    (process_command ⟨["s1"], .ok⟩ ⟨none⟩ .invalid).1 = ⟨none⟩ ∧
    (∃ m, (process_command ⟨["s1"], .ok⟩ ⟨none⟩ .invalid).2.1 =
      [.error m]) ∧
    (process_command ⟨["s1"], .ok⟩ ⟨none⟩ .invalid).2.2 = false ∧
    (process_command ⟨["s1"], .ok⟩
        (process_command ⟨["s1"], .ok⟩ ⟨none⟩ .invalid).1
        (.watch (some "s1"))).1 = ⟨some "s1"⟩ ∧
    ((process_command ⟨["s1"], .ok⟩
        (process_command ⟨["s1"], .ok⟩ ⟨none⟩ .invalid).1
        (.watch (some "s1"))).2.1).head? = some (.profile "s1") :=
  malformed_command_one_error ⟨["s1"], .ok⟩ ⟨none⟩ .invalid "s1"
    (Or.inl rfl) (by decide) (by simp)

/-- C9: when the initial snapshot fetch fails during a `watch` of an
existing session, the command emits the profile event, then an error for
the failed initial frame, and still enters streaming (the poll task is
spawned): initial-frame failure never aborts the activation. -/
theorem initial_fetch_failure_still_streams (st : BridgeState)
    (sessions : List String) (sid : String)
    (hsid : sid ≠ "") (hmem : sid ∈ sessions) :
    process_command ⟨sessions, .failed⟩ st (.watch (some sid)) =
      (⟨some sid⟩, [.profile sid, .error "Initial fetch failed"], false) := by
  simp [process_command, hsid, hmem]

/-- C9, witness: watching `s1` with a failing initial snapshot fetch. -/
theorem initial_fetch_failure_still_streams_witness :
    process_command ⟨["s1"], .failed⟩ ⟨none⟩ (.watch (some "s1")) =
      (⟨some "s1"⟩, [.profile "s1", .error "Initial fetch failed"], false) :=
  initial_fetch_failure_still_streams ⟨none⟩ ["s1"] "s1" (by decide) (by simp)

end ITerm2Bridge
